import Mathlib

/-!
Shallow embedding of the docs-snippet CI scripts:
  - ci/run-doc-pages.py  (block extraction and sequential execution of a plan)
  - ci/select-doc-pages.py  (building the ordered, dependency-expanded plan)

Pure Python string/regex processing is translated into executable Lean
functions over `String` / `List Char`.  Filesystem and process effects are
modelled by explicit environments (`RunEnv`, `SelEnv`) mapping paths to file
contents / existence / child exit codes.
-/

/-- The character used by Python source for a single quote, kept out of
character-literal syntax. -/
def squote : Char := Char.ofNat 39

/-- The character used by Python source for a double quote. -/
def dquote : Char := Char.ofNat 34

/-- Python's whitespace class: the characters matched by `str.strip()` (no
argument) and by the regex class `\s` (ASCII subset, which is all the
sources rely on). -/
def pySpace (c : Char) : Bool :=
  c = ' ' || c = '\t' || c = '\n' || c = '\r' || c = '\x0b' || c = '\x0c'

/-- `str.strip()` on a character list: drop `pySpace` characters from both
ends. -/
def pyStripChars (cs : List Char) : List Char :=
  ((cs.dropWhile pySpace).reverse.dropWhile pySpace).reverse

/-- `str.strip()` on a `String`. -/
def pyStripS (s : String) : String := ⟨pyStripChars s.toList⟩

/-- `str.strip(q)` for a single character `q`: drop `q` from both ends. -/
def stripAllChar (q : Char) (cs : List Char) : List Char :=
  ((cs.dropWhile (fun c => c = q)).reverse.dropWhile (fun c => c = q)).reverse

/-- Match a literal character sequence at the front, returning the rest on
success (the regex fragment for an escaped literal). -/
def dropLit : List Char → List Char → Option (List Char)
  | [], cs => some cs
  | _ :: _, [] => none
  | p :: ps, c :: cs => if c = p then dropLit ps cs else none

/-- `s.startswith(pat)` (and the anchored literal part of a regex). -/
def sStartsWith (pat s : String) : Bool := pat.toList.isPrefixOf s.toList

/-- `s.endswith(pat)`. -/
def sEndsWith (pat s : String) : Bool := pat.toList.isSuffixOf s.toList

/-- Matcher for `EXEC_BEGIN_RE = ^\s*#\s*\[docs-exec:([^\]]+)\]\s*$` from
run-doc-pages.py, returning the capture group.  The caller applies
`.strip()` to the capture (done here, matching `m.group(1).strip()`). -/
def beginMatchChars (cs : List Char) : Option (List Char) :=
  match cs.dropWhile pySpace with
  | '#' :: cs1 =>
    match dropLit "[docs-exec:".toList (cs1.dropWhile pySpace) with
    | some cs3 =>
      let cap := cs3.takeWhile (fun c => c ≠ ']')
      let rest := cs3.dropWhile (fun c => c ≠ ']')
      if cap.isEmpty then none
      else
        match rest with
        | ']' :: cs4 =>
          if (cs4.dropWhile pySpace).isEmpty then some (pyStripChars cap) else none
        | _ => none
    | none => none
  | _ => none

/-- `EXEC_BEGIN_RE.match(line)` followed by `m.group(1).strip()`. -/
def EXEC_BEGIN_match (line : String) : Option String :=
  (beginMatchChars line.toList).map (fun cs => (⟨cs⟩ : String))

/-- Matcher for `EXEC_END_FMT % re.escape(name)`, i.e.
`^\s*#\s*\[docs-exec:NAME-end\]\s*$` with `NAME` taken literally. -/
def endMatchChars (name : List Char) (cs : List Char) : Bool :=
  match cs.dropWhile pySpace with
  | '#' :: cs1 =>
    match dropLit ("[docs-exec:".toList ++ name ++ "-end]".toList) (cs1.dropWhile pySpace) with
    | some cs3 => (cs3.dropWhile pySpace).isEmpty
    | none => false
  | _ => false

/-- `end_re.match(line)` for the end marker of block `name`. -/
def EXEC_END_match (name : String) (line : String) : Bool :=
  endMatchChars name.toList line.toList

/-- The scanner state of `build_ci_text_from_exec_blocks`: either between
blocks, or inside the block `name` with the buffered lines collected so
far. -/
inductive ScanState where
  | scanning : ScanState
  | inBlock : String → List String → ScanState

/-- The nested `for` loops of `build_ci_text_from_exec_blocks` over the
shared `lines_iter`, as a state machine consuming the line list.  Returns
(out_chunks, names, missing-end warnings).  Note: when the input is
exhausted inside a block, the warning is recorded *and the buffered chunk
is still appended* (the `else:` clause of the Python inner `for` only
prints; `out_chunks.append` runs unconditionally afterwards). -/
def scanSM : ScanState → List String → List String × List String × List String
  | .scanning, [] => ([], [], [])
  | .scanning, l :: rest =>
    match EXEC_BEGIN_match l with
    | none => scanSM .scanning rest
    | some n =>
      let s := scanSM (.inBlock n []) rest
      (s.1, n :: s.2.1, s.2.2)
  | .inBlock n buf, [] => ([String.join buf], [], [n])
  | .inBlock n buf, l :: rest =>
    if EXEC_END_match n l then
      let s := scanSM .scanning rest
      (String.join buf :: s.1, s.2.1, s.2.2)
    else scanSM (.inBlock n (buf ++ [l])) rest

/-- Run the scanner from the initial `Scanning` state. -/
def scanLines (ls : List String) : List String × List String × List String :=
  scanSM .scanning ls

/-- The `ExtractedScript` dataclass of run-doc-pages.py. -/
structure ExtractedScript where
  text : String
  used_exec_blocks : Bool
  block_names : List String
deriving DecidableEq

/-- The fixed header prepended when at least one block was found. -/
def bashHeader : String := "#!/usr/bin/env bash\nset -euo pipefail\n"

/-- `"\n".join(out_chunks)` (Python `str.join`). -/
def joinSep (sep : String) : List String → String
  | [] => ""
  | [x] => x
  | x :: y :: xs => x ++ sep ++ joinSep sep (y :: xs)

/-- `build_ci_text_from_exec_blocks`, taking the script's text as the list
of its lines (with their terminators, as `read_text().splitlines(True)`
produces).  Besides the `ExtractedScript`, also returns the list of block
names for which a missing-end warning was printed to stderr. -/
def build_ci_text_from_exec_blocks (srcLines : List String) :
    ExtractedScript × List String :=
  let s := scanLines srcLines
  if s.2.1.isEmpty then (⟨"", false, []⟩, s.2.2)
  else (⟨bashHeader ++ joinSep "\n" s.1, true, s.2.1⟩, s.2.2)

/-- Split a text after each newline character, keeping the terminator on
each line, as `read_text().splitlines(True)` does (the sources only rely
on `\n`-terminated text). -/
def splitKeepNlAux : List Char → List Char → List (List Char)
  | acc, [] => if acc.isEmpty then [] else [acc.reverse]
  | acc, c :: cs =>
    if c = '\n' then (acc.reverse ++ ['\n']) :: splitKeepNlAux [] cs
    else splitKeepNlAux (c :: acc) cs

/-- `splitlines(True)` on a `String` (newline boundaries). -/
def splitKeepNl (s : String) : List String :=
  (splitKeepNlAux [] s.toList).map (fun cs => (⟨cs⟩ : String))

/-- `raw.replace("\r\n", "\n").replace("\r", "\n")` from `read_plan`. -/
def normNl : List Char → List Char
  | [] => []
  | '\r' :: '\n' :: cs => '\n' :: normNl cs
  | '\r' :: cs => '\n' :: normNl cs
  | c :: cs => c :: normNl cs

/-- Split on newline characters, keeping every segment (the blank final
segment of a terminated text is filtered out downstream, exactly as
`splitlines()` followed by the blank-line filter behaves). -/
def splitNlAux : List Char → List Char → List (List Char)
  | acc, [] => [acc.reverse]
  | acc, c :: cs =>
    if c = '\n' then acc.reverse :: splitNlAux [] cs
    else splitNlAux (c :: acc) cs

/-- `p.lstrip().startswith("#")`. -/
def lstripStartsHash (s : String) : Bool :=
  match s.toList.dropWhile pySpace with
  | '#' :: _ => true
  | _ => false

/-- The parsing part of `read_plan`: normalize line endings, split into
lines, keep lines whose strip is non-empty and whose lstrip does not start
with `#`, and return each kept line stripped (`Path(p.strip())`; `Path`
normalization is not modelled — plan entries are plain relative paths). -/
def read_plan_parse (raw : String) : List String :=
  (((splitNlAux [] (normNl raw.toList)).map (fun cs => (⟨cs⟩ : String))).filter
    (fun p => !(pyStripChars p.toList).isEmpty && !lstripStartsHash p)).map pyStripS

/-- The world run-doc-pages.py runs in: file contents by path (`none` =
missing), the exit code the child process would produce for each task
script, and the `PRINT_PLAN=1` dry-run toggle. -/
structure RunEnv where
  files : String → Option String
  exitOf : String → Int
  printPlan : Bool

/-- The observable outcome of `main`: the returned exit code, the tasks
whose child process was actually started (in order), and the task reported
by the missing-blocks failure, if any. -/
structure RunResult where
  exitCode : Int
  executed : List String
  usageErrorAt : Option String
deriving DecidableEq

/-- The extraction `make_executable_copy` performs for a task of the
plan (the file exists whenever this is reached, after
`require_files_exist`). -/
def taskExtraction (env : RunEnv) (s : String) : ExtractedScript :=
  (build_ci_text_from_exec_blocks (splitKeepNl ((env.files s).getD ""))).1

/-- The missing-end warnings emitted while extracting a task. -/
def taskWarnings (env : RunEnv) (s : String) : List String :=
  (build_ci_text_from_exec_blocks (splitKeepNl ((env.files s).getD ""))).2

/-- The `for i, script in enumerate(scripts)` execution loop of `main`:
extract each task, fail with exit 1 if it has no blocks, otherwise run it
and stop at the first non-zero child exit code. -/
def execLoop (env : RunEnv) : List String → RunResult
  | [] => ⟨0, [], none⟩
  | s :: rest =>
    if (taskExtraction env s).used_exec_blocks = false then ⟨1, [], some s⟩
    else
      let rc := env.exitOf s
      if rc ≠ 0 then ⟨rc, [s], none⟩
      else
        let r := execLoop env rest
        ⟨r.exitCode, s :: r.executed, r.usageErrorAt⟩

/-- `main()` of run-doc-pages.py: read the plan, succeed on an empty plan,
require every script to exist, report the plan in dry-run mode, otherwise
run the execution loop.  Errors raised (missing plan file, missing
scripts) propagate as `Except.error`. -/
def mainE (env : RunEnv) (planPath : String) : Except String RunResult :=
  match env.files planPath with
  | none => .error "Plan file not found"
  | some raw =>
    let scripts := read_plan_parse raw
    if scripts.isEmpty then .ok ⟨0, [], none⟩
    else if scripts.any (fun s => (env.files s).isNone) then
      .error "Script(s) in plan not found"
    else if env.printPlan then .ok ⟨0, [], none⟩
    else .ok (execLoop env scripts)

/-- The `if __name__ == "__main__"` wrapper of run-doc-pages.py: the value
returned by `main` becomes the process exit code; any uncaught exception
exits with code 2 (`KeyboardInterrupt`, exit 130, is outside the model). -/
def topMain (env : RunEnv) (planPath : String) : Int :=
  match mainE env planPath with
  | .ok r => r.exitCode
  | .error _ => 2

/-- `re.split(r"\s+", raw.strip())` with empty tokens dropped, as the
`if t` filter in `from_changed_files` does. -/
def wordsByAux : List Char → List Char → List (List Char)
  | acc, [] => if acc.isEmpty then [] else [acc.reverse]
  | acc, c :: cs =>
    if pySpace c then
      if acc.isEmpty then wordsByAux [] cs else acc.reverse :: wordsByAux [] cs
    else wordsByAux (c :: acc) cs

/-- Whitespace-tokenize a changed-file list. -/
def splitWs (raw : String) : List String :=
  (wordsByAux [] raw.toList).map (fun cs => (⟨cs⟩ : String))

/-- `dict.fromkeys` style first-occurrence insertion (also the
`seen`/`ordered` bookkeeping of `expand_dependencies`). -/
def insertNew (acc : List String) (x : String) : List String :=
  if x ∈ acc then acc else acc ++ [x]

/-- `ExecutionPlan.from_changed_files` (the pure part, given the file's
text): whitespace-tokenize, drop tokens starting with `#`, keep tokens
ending in `.task.sh`, and deduplicate preserving first occurrence. -/
def from_changed_files (raw : String) : List String :=
  (((splitWs raw).filter (fun t => !sStartsWith "#" t)).filter
    (fun t => sEndsWith ".task.sh" t)).foldl insertNew []

/-- One step of `expand_dependencies`: insert the not-yet-seen direct
dependencies of `s`, then `s` itself. -/
def expandStep (depsOf : String → List String) (acc : List String) (s : String) :
    List String :=
  insertNew ((depsOf s).foldl insertNew acc) s

/-- `ExecutionPlan.expand_dependencies`, with `depsOf` standing for
`_parse_direct_depends` composed with path resolution (paths are modelled
as already-resolved identities). -/
def expand_dependencies (depsOf : String → List String) (scripts : List String) :
    List String :=
  scripts.foldl (expandStep depsOf) []

/-- The `raw.strip().strip("'").strip('"')` cleanup in `_resolve_dep`. -/
def cleanRef (raw : String) : String :=
  ⟨stripAllChar dquote (stripAllChar squote (pyStripChars raw.toList))⟩

/-- `pathlib`'s `/` operator on POSIX-style paths: joining an absolute
right operand discards the base (`.resolve()` normalization of `.`/`..`
segments is not modelled; the claims are about which base is chosen). -/
def pJoin (base s : String) : String :=
  if sStartsWith "/" s then s else base ++ "/" ++ s

/-- `ExecutionPlan._resolve_dep`: absolute references as-is, `./` and `../`
references against the declaring script's directory, anything else against
the repo root. -/
def resolveDep (repoRoot scriptDir : String) (raw : String) : String :=
  let s := cleanRef raw
  if sStartsWith "/" s then s
  else if sStartsWith "./" s || sStartsWith "../" s then pJoin scriptDir s
  else pJoin repoRoot s

/-- The exception kinds distinguished by `main` in select-doc-pages.py. -/
inductive PyExc where
  | fileNotFound : PyExc
  | otherExc : PyExc
deriving DecidableEq

/-- The world select-doc-pages.py runs in: the outcome of reading the
changed-file list, file existence on disk, and the resolved direct
dependencies of each script (`_parse_direct_depends`). -/
structure SelEnv where
  changedRead : Except PyExc String
  fileExists : String → Bool
  depsOf : String → List String

/-- `main()` of select-doc-pages.py.  A `FileNotFoundError` from reading
the changed list propagates; any other exception there is swallowed into
an empty plan.  An empty plan is written as the single newline `"\n"`
(`"\n".join([]) + "\n"`) with exit 0.  Otherwise the plan is validated,
expanded, re-validated (a failure raises, `Except.error`) and written
(path normalization modelled as the identity). -/
def selMain (env : SelEnv) : Except PyExc (Int × String) :=
  match env.changedRead with
  | .error .fileNotFound => .error .fileNotFound
  | .error .otherExc => .ok (0, "\n")
  | .ok raw =>
    let plan := from_changed_files raw
    if plan.isEmpty then .ok (0, "\n")
    else if !(plan.all env.fileExists) then .error .fileNotFound
    else
      let plan2 := expand_dependencies env.depsOf plan
      if !(plan2.all env.fileExists) then .error .fileNotFound
      else .ok (0, joinSep "\n" plan2 ++ "\n")

/-- The `if __name__ == "__main__"` wrapper of select-doc-pages.py: exit
code plus the plan text written, `none` when the run died before writing;
any uncaught exception exits with code 2. -/
def selTop (env : SelEnv) : Int × Option String :=
  match selMain env with
  | .ok (c, w) => (c, some w)
  | .error _ => (2, none)

/-- The position of an entry in a plan (the index of its first
occurrence). -/
def planIdx (a : String) : List String → Nat
  | [] => 0
  | b :: l => if b = a then 0 else planIdx a l + 1

/-- Dependency map of a concrete healthy example: `a.task.sh` declares
`c.task.sh`. -/
def depsW : String → List String :=
  fun s => if s = "a.task.sh" then ["c.task.sh"] else []

/-- Dependency map where a script declares itself. -/
def dSelf : String → List String :=
  fun s => if s = "a.task.sh" then ["a.task.sh"] else []

/-- Dependency map where `e.task.sh` declares `t.task.sh` (also a selected
task) and `t.task.sh` declares `d.task.sh`. -/
def dPromo : String → List String :=
  fun s =>
    if s = "e.task.sh" then ["t.task.sh"]
    else if s = "t.task.sh" then ["d.task.sh"]
    else []

/-- A world with a one-task plan whose script has a begin marker for `x`
and no matching end marker; the child would exit 0. -/
def envUnterminated : RunEnv :=
  ⟨fun p =>
    if p = "plan.txt" then some "t.task.sh\n"
    else if p = "t.task.sh" then some "# [docs-exec:x]\necho hi\n"
    else none,
   fun _ => 0, false⟩

/-- A world with a two-task plan whose first task's child exits 3. -/
def envFailStep : RunEnv :=
  ⟨fun p =>
    if p = "plan.txt" then some "a.task.sh\nb.task.sh\n"
    else if p = "a.task.sh" then some "# [docs-exec:s]\nexit 3\n# [docs-exec:s-end]\n"
    else if p = "b.task.sh" then some "# [docs-exec:s]\necho ok\n# [docs-exec:s-end]\n"
    else none,
   fun p => if p = "a.task.sh" then 3 else 0, false⟩

/-- A world with a two-task plan whose first task has no begin markers at
all. -/
def envNoBlocks : RunEnv :=
  ⟨fun p =>
    if p = "plan.txt" then some "a.task.sh\nb.task.sh\n"
    else if p = "a.task.sh" then some "echo plain\n"
    else if p = "b.task.sh" then some "# [docs-exec:s]\necho ok\n# [docs-exec:s-end]\n"
    else none,
   fun _ => 0, false⟩

/-- A world whose plan names a script that does not exist on disk. -/
def envMissing : RunEnv :=
  ⟨fun p => if p = "plan.txt" then some "gone.task.sh\n" else none,
   fun _ => 0, false⟩

/-- A select-doc-pages world whose changed list selects a missing file. -/
def selenvMissing : SelEnv :=
  ⟨.ok "gone.task.sh\n", fun _ => false, fun _ => []⟩

/-- A select-doc-pages world where reading the changed list fails with
something other than `FileNotFoundError`. -/
def selenvBadRead : SelEnv :=
  ⟨.error .otherExc, fun _ => true, fun _ => []⟩

/-! ### Scanner lemmas -/

theorem scanSM_skip (pre rest : List String)
    (h : ∀ l ∈ pre, EXEC_BEGIN_match l = none) :
    scanSM .scanning (pre ++ rest) = scanSM .scanning rest := by
  induction pre with
  | nil => rfl
  | cons l pre ih =>
    have hl : EXEC_BEGIN_match l = none := h l (by simp)
    simp only [List.cons_append, scanSM, hl]
    exact ih (fun x hx => h x (by simp [hx]))

theorem scanSM_no_begin (ls : List String)
    (h : ∀ l ∈ ls, EXEC_BEGIN_match l = none) :
    scanSM .scanning ls = ([], [], []) := by
  have := scanSM_skip ls [] h
  simpa using this

theorem scanSM_begin_hit (l n : String) (rest : List String)
    (h : EXEC_BEGIN_match l = some n) :
    scanSM .scanning (l :: rest) =
      ((scanSM (.inBlock n []) rest).1, n :: (scanSM (.inBlock n []) rest).2.1,
        (scanSM (.inBlock n []) rest).2.2) := by
  simp [scanSM, h]

theorem scanSM_end_hit (n el : String) (buf rest : List String)
    (h : EXEC_END_match n el = true) :
    scanSM (.inBlock n buf) (el :: rest) =
      (String.join buf :: (scanSM .scanning rest).1, (scanSM .scanning rest).2.1,
        (scanSM .scanning rest).2.2) := by
  simp [scanSM, h]

theorem scanSM_inBlock_app (n : String) (buf body rest : List String)
    (h : ∀ l ∈ body, EXEC_END_match n l = false) :
    scanSM (.inBlock n buf) (body ++ rest) = scanSM (.inBlock n (buf ++ body)) rest := by
  induction body generalizing buf with
  | nil => simp
  | cons l body ih =>
    have hl : EXEC_END_match n l = false := h l (by simp)
    simp only [List.cons_append, scanSM, hl]
    rw [if_neg (by simp [hl])]
    simp only [List.append_eq]
    rw [ih (buf ++ [l]) (fun x hx => h x (by simp [hx]))]
    simp

/-! ### Claim C1 -/

/-- Claim C1 (amended): for a script whose begin marker for `n` is never
matched by an end marker, `build_ci_text_from_exec_blocks` *keeps* the
buffered block lines in the extracted text (they are appended, not
discarded), emits exactly one missing-end warning naming `n`, and stops
scanning because the input is exhausted. -/
theorem c1_unterminated_block_kept (pre : List String) (bl : String)
    (body : List String) (n : String)
    (hpre : ∀ l ∈ pre, EXEC_BEGIN_match l = none)
    (hbl : EXEC_BEGIN_match bl = some n)
    (hbody : ∀ l ∈ body, EXEC_END_match n l = false) :
    build_ci_text_from_exec_blocks (pre ++ bl :: body) =
      (⟨bashHeader ++ String.join body, true, [n]⟩, [n]) := by
  have hblock : scanSM (.inBlock n []) body = ([String.join body], [], [n]) := by
    have h1 : scanSM (.inBlock n []) (body ++ []) = scanSM (.inBlock n ([] ++ body)) [] :=
      scanSM_inBlock_app n [] body [] hbody
    simpa using h1
  have hscan : scanSM .scanning (pre ++ bl :: body) = ([String.join body], [n], [n]) := by
    rw [scanSM_skip pre _ hpre, scanSM_begin_hit bl n body hbl, hblock]
  unfold build_ci_text_from_exec_blocks scanLines
  rw [hscan]
  rfl

/-- Claim C1 witness: a concrete unterminated block, via
`c1_unterminated_block_kept`. -/
theorem c1_unterminated_block_kept_wit :
    build_ci_text_from_exec_blocks ["# [docs-exec:x]\n", "echo hi\n"] =
      (⟨bashHeader ++ "echo hi\n", true, ["x"]⟩, ["x"]) := by
  have h := c1_unterminated_block_kept [] "# [docs-exec:x]\n" ["echo hi\n"] "x"
    (by simp) (by decide) (by decide)
  exact h.trans (by decide)

/-- Claim C1 counterexample: the claim says the unterminated block's lines
do not appear in the extracted output; at this input the buffered line
`echo hi\n` *does* appear in the output text (one warning naming `x` is
recorded, as the claim says). -/
theorem c1_cex :
    (build_ci_text_from_exec_blocks ["# [docs-exec:x]\n", "echo hi\n"]).1.text =
      bashHeader ++ "echo hi\n" ∧
    (build_ci_text_from_exec_blocks ["# [docs-exec:x]\n", "echo hi\n"]).2 = ["x"] ∧
    bashHeader ++ "echo hi\n" ≠ bashHeader := by decide

/-! ### Claim C5 -/

/-- Claim C5 (amended): a script with exactly two well-formed blocks with
contents `A` then `B` extracts to the fixed bash header followed by `A`'s
content, one separator newline inserted by the join, then `B`'s content.
The separator keeps any line of `A` off the first line of `B`, but the
extracted text is *not* `A`'s content immediately followed by `B`'s: a
newline is inserted between them (and the header precedes them). -/
theorem c5_two_blocks (pre abody mid bbody post : List String)
    (bl1 el1 bl2 el2 : String) (na nb : String)
    (hpre : ∀ l ∈ pre, EXEC_BEGIN_match l = none)
    (hmid : ∀ l ∈ mid, EXEC_BEGIN_match l = none)
    (hpost : ∀ l ∈ post, EXEC_BEGIN_match l = none)
    (hb1 : EXEC_BEGIN_match bl1 = some na)
    (hb2 : EXEC_BEGIN_match bl2 = some nb)
    (hab : ∀ l ∈ abody, EXEC_END_match na l = false)
    (hbb : ∀ l ∈ bbody, EXEC_END_match nb l = false)
    (he1 : EXEC_END_match na el1 = true)
    (he2 : EXEC_END_match nb el2 = true) :
    build_ci_text_from_exec_blocks
        (pre ++ bl1 :: (abody ++ el1 :: (mid ++ bl2 :: (bbody ++ el2 :: post)))) =
      (⟨bashHeader ++ (String.join abody ++ "\n" ++ String.join bbody), true,
        [na, nb]⟩, []) := by
  have hpost' : scanSM .scanning post = ([], [], []) := scanSM_no_begin post hpost
  have h4 : scanSM (.inBlock nb []) (bbody ++ el2 :: post) = ([String.join bbody], [], []) := by
    have := scanSM_inBlock_app nb [] bbody (el2 :: post) hbb
    rw [this]
    simp only [List.nil_append]
    rw [scanSM_end_hit nb el2 bbody post he2, hpost']
  have h3 : scanSM .scanning (bl2 :: (bbody ++ el2 :: post)) =
      ([String.join bbody], [nb], []) := by
    rw [scanSM_begin_hit bl2 nb _ hb2, h4]
  have h2 : scanSM .scanning (mid ++ bl2 :: (bbody ++ el2 :: post)) =
      ([String.join bbody], [nb], []) := by
    rw [scanSM_skip mid _ hmid, h3]
  have h1 : scanSM (.inBlock na []) (abody ++ el1 :: (mid ++ bl2 :: (bbody ++ el2 :: post))) =
      ([String.join abody, String.join bbody], [nb], []) := by
    have := scanSM_inBlock_app na [] abody
      (el1 :: (mid ++ bl2 :: (bbody ++ el2 :: post))) hab
    rw [this]
    simp only [List.nil_append]
    rw [scanSM_end_hit na el1 abody _ he1, h2]
  have h0 : scanSM .scanning
      (pre ++ bl1 :: (abody ++ el1 :: (mid ++ bl2 :: (bbody ++ el2 :: post)))) =
      ([String.join abody, String.join bbody], [na, nb], []) := by
    rw [scanSM_skip pre _ hpre, scanSM_begin_hit bl1 na _ hb1, h1]
  unfold build_ci_text_from_exec_blocks scanLines
  rw [h0]
  rfl

/-- Claim C5 witness: a concrete two-block script, via `c5_two_blocks`. -/
theorem c5_two_blocks_wit :
    build_ci_text_from_exec_blocks
        ["# [docs-exec:a]\n", "echo A\n", "# [docs-exec:a-end]\n",
         "# [docs-exec:b]\n", "echo B\n", "# [docs-exec:b-end]\n"] =
      (⟨"#!/usr/bin/env bash\nset -euo pipefail\necho A\n\necho B\n", true,
        ["a", "b"]⟩, []) := by
  have h := c5_two_blocks [] ["echo A\n"] [] ["echo B\n"] []
    "# [docs-exec:a]\n" "# [docs-exec:a-end]\n"
    "# [docs-exec:b]\n" "# [docs-exec:b-end]\n" "a" "b"
    (by simp) (by simp) (by simp) (by decide) (by decide)
    (by decide) (by decide) (by decide) (by decide)
  exact h.trans (by decide)

/-- Claim C5 counterexample: for the two-block script with contents
`echo A\n` then `echo B\n`, the extracted text is not `A` immediately
followed by `B` (nor the header followed by `A ++ B`): a separator newline
is inserted between the blocks and a header precedes them. -/
theorem c5_cex :
    (build_ci_text_from_exec_blocks
        ["# [docs-exec:a]\n", "echo A\n", "# [docs-exec:a-end]\n",
         "# [docs-exec:b]\n", "echo B\n", "# [docs-exec:b-end]\n"]).1.text =
      "#!/usr/bin/env bash\nset -euo pipefail\necho A\n\necho B\n" ∧
    "#!/usr/bin/env bash\nset -euo pipefail\necho A\n\necho B\n" ≠
      "echo A\n" ++ "echo B\n" ∧
    "#!/usr/bin/env bash\nset -euo pipefail\necho A\n\necho B\n" ≠
      bashHeader ++ ("echo A\n" ++ "echo B\n") := by decide


/-! ### Plan-builder lemmas -/

theorem mem_insertNew (acc : List String) (a x : String) :
    x ∈ insertNew acc a ↔ x ∈ acc ∨ x = a := by
  unfold insertNew
  by_cases h : a ∈ acc
  · rw [if_pos h]
    constructor
    · exact Or.inl
    · rintro (hx | rfl)
      · exact hx
      · exact h
  · rw [if_neg h]
    simp [List.mem_append]

theorem insertNew_not_mem (acc : List String) (a : String) (h : a ∉ acc) :
    insertNew acc a = acc ++ [a] := by
  unfold insertNew
  rw [if_neg h]

theorem mem_foldl_insertNew (l acc : List String) (x : String) :
    x ∈ l.foldl insertNew acc ↔ x ∈ acc ∨ x ∈ l := by
  induction l generalizing acc with
  | nil => simp
  | cons a l ih =>
    rw [List.foldl_cons, ih, mem_insertNew]
    simp only [List.mem_cons]
    tauto

theorem insertNew_nodup (acc : List String) (x : String) (h : acc.Nodup) :
    (insertNew acc x).Nodup := by
  unfold insertNew
  by_cases hx : x ∈ acc
  · rwa [if_pos hx]
  · rw [if_neg hx]
    simp [List.nodup_append, h, hx]

theorem foldl_insertNew_nodup (l : List String) (acc : List String) (h : acc.Nodup) :
    (l.foldl insertNew acc).Nodup := by
  induction l generalizing acc with
  | nil => simpa
  | cons a l ih => exact ih _ (insertNew_nodup acc a h)

theorem foldl_expandStep_nodup (d : String → List String) (l acc : List String)
    (h : acc.Nodup) : (l.foldl (expandStep d) acc).Nodup := by
  induction l generalizing acc with
  | nil => simpa
  | cons a l ih =>
    exact ih _ (insertNew_nodup _ _ (foldl_insertNew_nodup _ _ h))

theorem mem_expandStep (d : String → List String) (acc : List String) (s x : String) :
    x ∈ expandStep d acc s ↔ x ∈ acc ∨ x ∈ d s ∨ x = s := by
  unfold expandStep
  rw [mem_insertNew, mem_foldl_insertNew]
  tauto

theorem mem_foldl_expandStep (d : String → List String) (l acc : List String) (x : String) :
    x ∈ l.foldl (expandStep d) acc ↔ x ∈ acc ∨ ∃ s ∈ l, (x ∈ d s ∨ x = s) := by
  induction l generalizing acc with
  | nil => simp
  | cons a l ih =>
    rw [List.foldl_cons, ih, mem_expandStep]
    simp only [List.mem_cons]
    constructor
    · rintro ((hx | hx | hx) | ⟨s, hs, hds⟩)
      · exact Or.inl hx
      · exact Or.inr ⟨a, Or.inl rfl, Or.inl hx⟩
      · exact Or.inr ⟨a, Or.inl rfl, Or.inr hx⟩
      · exact Or.inr ⟨s, Or.inr hs, hds⟩
    · rintro (hx | ⟨s, (rfl | hs), hds⟩)
      · exact Or.inl (Or.inl hx)
      · rcases hds with hds | hds
        · exact Or.inl (Or.inr (Or.inl hds))
        · exact Or.inl (Or.inr (Or.inr hds))
      · exact Or.inr ⟨s, hs, hds⟩

theorem insertNew_ext (acc : List String) (a : String) :
    ∃ t, insertNew acc a = acc ++ t := by
  unfold insertNew
  by_cases h : a ∈ acc
  · exact ⟨[], by rw [if_pos h]; simp⟩
  · exact ⟨[a], by rw [if_neg h]⟩

theorem foldl_insertNew_ext (l acc : List String) :
    ∃ t, l.foldl insertNew acc = acc ++ t := by
  induction l generalizing acc with
  | nil => exact ⟨[], by simp⟩
  | cons a l ih =>
    obtain ⟨t1, h1⟩ := insertNew_ext acc a
    obtain ⟨t2, h2⟩ := ih (insertNew acc a)
    exact ⟨t1 ++ t2, by rw [List.foldl_cons, h2, h1, List.append_assoc]⟩

theorem expandStep_ext (d : String → List String) (acc : List String) (s : String) :
    ∃ t, expandStep d acc s = acc ++ t := by
  obtain ⟨u, hu⟩ := foldl_insertNew_ext (d s) acc
  obtain ⟨v, hv⟩ := insertNew_ext ((d s).foldl insertNew acc) s
  refine ⟨u ++ v, ?_⟩
  unfold expandStep
  rw [hv, hu, List.append_assoc]

theorem foldl_expandStep_ext (d : String → List String) (l acc : List String) :
    ∃ t, l.foldl (expandStep d) acc = acc ++ t := by
  induction l generalizing acc with
  | nil => exact ⟨[], by simp⟩
  | cons a l ih =>
    obtain ⟨t1, h1⟩ := expandStep_ext d acc a
    obtain ⟨t2, h2⟩ := ih (expandStep d acc a)
    exact ⟨t1 ++ t2, by rw [List.foldl_cons, h2, h1, List.append_assoc]⟩

theorem planIdx_append_left (a : String) (l1 l2 : List String) (h : a ∈ l1) :
    planIdx a (l1 ++ l2) = planIdx a l1 := by
  induction l1 with
  | nil => simp at h
  | cons b l ih =>
    simp only [List.cons_append, planIdx, List.append_eq]
    by_cases hb : b = a
    · rw [if_pos hb, if_pos hb]
    · rw [if_neg hb, if_neg hb]
      have ha : a ∈ l := by
        rcases List.mem_cons.mp h with h' | h'
        · exact absurd h'.symm hb
        · exact h'
      rw [ih ha]

theorem planIdx_append_not_mem (a : String) (l1 l2 : List String) (h : a ∉ l1) :
    planIdx a (l1 ++ l2) = l1.length + planIdx a l2 := by
  induction l1 with
  | nil => simp
  | cons b l ih =>
    simp only [List.cons_append, planIdx, List.length_cons, List.append_eq]
    have hb : b ≠ a := fun hb => h (by simp [hb])
    rw [if_neg hb, ih (fun ha => h (List.mem_cons_of_mem b ha))]
    omega

theorem planIdx_lt_length (a : String) (l : List String) (h : a ∈ l) :
    planIdx a l < l.length := by
  induction l with
  | nil => simp at h
  | cons b l ih =>
    simp only [planIdx, List.length_cons]
    by_cases hb : b = a
    · rw [if_pos hb]; omega
    · rw [if_neg hb]
      have ha : a ∈ l := by
        rcases List.mem_cons.mp h with h' | h'
        · exact absurd h'.symm hb
        · exact h'
      have := ih ha
      omega

/-! ### Claim C3 -/

/-- Claim C3 (amended): selection from the changed-file list is
token-based, not line-based: the input is split on whitespace runs, and a
token is selected iff it ends in `.task.sh` and does not itself start with
`#`.  A `#` only suppresses the token that starts with it, never the rest
of its line. -/
theorem c3_token_based_selection (s raw : String) :
    s ∈ from_changed_files raw ↔
      s ∈ splitWs raw ∧ sStartsWith "#" s = false ∧ sEndsWith ".task.sh" s = true := by
  unfold from_changed_files
  rw [mem_foldl_insertNew]
  simp only [List.not_mem_nil, false_or, List.mem_filter, Bool.not_eq_true']
  tauto

/-- Claim C3 counterexample: the claim says a line beginning with `#` is
ignored in its entirety and only paths on their own line are selected; the
code selects `foo.task.sh` from the commented line `# foo.task.sh`, and
selects two entries sharing one line. -/
theorem c3_cex :
    from_changed_files "# foo.task.sh\nbar.task.sh\n" = ["foo.task.sh", "bar.task.sh"] ∧
    from_changed_files "a.task.sh b.task.sh" = ["a.task.sh", "b.task.sh"] := by decide

/-! ### Claim C4 -/

/-- Claim C4 (amended): every plan built by `expand_dependencies` from a
duplicate-free selected list is duplicate-free (first occurrence wins, so
any dependency appears exactly once however many tasks declare it); and
for a selected task `T` that does not declare itself and is not declared
as a dependency by any earlier selected task, every declared dependency
`D` of `T` is in the plan at an index strictly less than `T`'s. -/
theorem c4_plan_nodup_and_dep_order (d : String → List String) (scripts : List String)
    (hnd : scripts.Nodup) :
    (expand_dependencies d scripts).Nodup ∧
    (∀ pre T suf, scripts = pre ++ T :: suf →
      T ∉ d T → (∀ S ∈ pre, T ∉ d S) →
      ∀ D ∈ d T,
        D ∈ expand_dependencies d scripts ∧
        planIdx D (expand_dependencies d scripts) <
          planIdx T (expand_dependencies d scripts)) := by
  constructor
  · exact foldl_expandStep_nodup d scripts [] List.nodup_nil
  · intro pre T suf hsplit hself hpredeps D hD
    subst hsplit
    have hTpre : T ∉ pre := by
      intro hTp
      exact (List.nodup_append.mp hnd).2.2 hTp (by simp)
    have hTA : T ∉ pre.foldl (expandStep d) [] := by
      rw [mem_foldl_expandStep]
      rintro (h | ⟨S, hS, hd | hd⟩)
      · simp at h
      · exact hpredeps S hS hd
      · exact hTpre (hd ▸ hS)
    have hDA1 : D ∈ (d T).foldl insertNew (pre.foldl (expandStep d) []) :=
      (mem_foldl_insertNew _ _ _).mpr (Or.inr hD)
    have hTA1 : T ∉ (d T).foldl insertNew (pre.foldl (expandStep d) []) := by
      rw [mem_foldl_insertNew]
      rintro (h | h)
      · exact hTA h
      · exact hself h
    have hstep : expandStep d (pre.foldl (expandStep d) []) T =
        (d T).foldl insertNew (pre.foldl (expandStep d) []) ++ [T] := by
      unfold expandStep
      exact insertNew_not_mem _ _ hTA1
    have hfold : expand_dependencies d (pre ++ T :: suf) =
        suf.foldl (expandStep d)
          ((d T).foldl insertNew (pre.foldl (expandStep d) []) ++ [T]) := by
      unfold expand_dependencies
      rw [List.foldl_append, List.foldl_cons, hstep]
    obtain ⟨ext, hext⟩ :=
      foldl_expandStep_ext d suf ((d T).foldl insertNew (pre.foldl (expandStep d) []) ++ [T])
    rw [hfold, hext]
    have hD2 : D ∈ (d T).foldl insertNew (pre.foldl (expandStep d) []) ++ [T] :=
      List.mem_append_left _ hDA1
    have hT2 : T ∈ (d T).foldl insertNew (pre.foldl (expandStep d) []) ++ [T] := by simp
    refine ⟨List.mem_append_left _ hD2, ?_⟩
    rw [planIdx_append_left D _ ext hD2, planIdx_append_left T _ ext hT2]
    rw [planIdx_append_left D _ _ hDA1, planIdx_append_not_mem T _ _ hTA1]
    have h0 : planIdx T [T] = 0 := by simp [planIdx]
    rw [h0]
    have := planIdx_lt_length D _ hDA1
    omega

/-- Claim C4 witness: `a.task.sh` declares `c.task.sh`; the expanded plan
is duplicate-free and places the dependency strictly before the declaring
task, via `c4_plan_nodup_and_dep_order`. -/
theorem c4_wit :
    (expand_dependencies depsW ["a.task.sh", "b.task.sh"]).Nodup ∧
    planIdx "c.task.sh" (expand_dependencies depsW ["a.task.sh", "b.task.sh"]) <
      planIdx "a.task.sh" (expand_dependencies depsW ["a.task.sh", "b.task.sh"]) := by
  have h := c4_plan_nodup_and_dep_order depsW ["a.task.sh", "b.task.sh"] (by decide)
  exact ⟨h.1, (h.2 [] "a.task.sh" ["b.task.sh"] rfl (by decide) (by simp)
    "c.task.sh" (by decide)).2⟩

/-- Claim C4 counterexample: the claimed strict ordering fails (a) for a
task declaring itself (`D = T`, equal indices) and (b) for a task `t` that
an earlier task `e` already inserted as its dependency: `t`'s own
dependency `d` is then appended *after* `t`. -/
theorem c4_cex :
    (expand_dependencies dSelf ["a.task.sh"] = ["a.task.sh"] ∧
      "a.task.sh" ∈ dSelf "a.task.sh" ∧
      ¬ planIdx "a.task.sh" (expand_dependencies dSelf ["a.task.sh"]) <
          planIdx "a.task.sh" (expand_dependencies dSelf ["a.task.sh"])) ∧
    (expand_dependencies dPromo ["e.task.sh", "t.task.sh"] =
        ["t.task.sh", "e.task.sh", "d.task.sh"] ∧
      "d.task.sh" ∈ dPromo "t.task.sh" ∧
      ¬ planIdx "d.task.sh" (expand_dependencies dPromo ["e.task.sh", "t.task.sh"]) <
          planIdx "t.task.sh" (expand_dependencies dPromo ["e.task.sh", "t.task.sh"])) := by
  decide

/-! ### Executor lemmas -/

theorem any_isNone_eq_false (env : RunEnv) (ls : List String)
    (hex : ∀ s ∈ ls, (env.files s).isSome) :
    ls.any (fun s => (env.files s).isNone) = false := by
  rw [List.any_eq_false]
  intro x hx
  have h := hex x hx
  cases hfx : env.files x with
  | none => rw [hfx] at h; simp at h
  | some v => simp [hfx]

theorem mainE_run (env : RunEnv) (planPath raw : String)
    (hplan : env.files planPath = some raw)
    (hne : (read_plan_parse raw).isEmpty = false)
    (hex : ∀ s ∈ read_plan_parse raw, (env.files s).isSome)
    (hdry : env.printPlan = false) :
    mainE env planPath = .ok (execLoop env (read_plan_parse raw)) := by
  unfold mainE
  rw [hplan]
  simp [hne, any_isNone_eq_false env _ hex, hdry]

theorem execLoop_all_ok (env : RunEnv) (scripts : List String)
    (h : ∀ s ∈ scripts,
      (taskExtraction env s).used_exec_blocks = true ∧ env.exitOf s = 0) :
    execLoop env scripts = ⟨0, scripts, none⟩ := by
  induction scripts with
  | nil => rfl
  | cons s rest ih =>
    obtain ⟨hb, hrc⟩ := h s (by simp)
    have ih' := ih (fun x hx => h x (List.mem_cons_of_mem s hx))
    simp [execLoop, hb, hrc, ih']

theorem execLoop_first_fail (env : RunEnv) (pre : List String) (t : String)
    (suf : List String)
    (hpre : ∀ s ∈ pre,
      (taskExtraction env s).used_exec_blocks = true ∧ env.exitOf s = 0)
    (htb : (taskExtraction env t).used_exec_blocks = true)
    (hrc : env.exitOf t ≠ 0) :
    execLoop env (pre ++ t :: suf) = ⟨env.exitOf t, pre ++ [t], none⟩ := by
  induction pre with
  | nil => simp [execLoop, htb, hrc]
  | cons s pre ih =>
    obtain ⟨hb, h0⟩ := hpre s (by simp)
    have ih' := ih (fun x hx => hpre x (List.mem_cons_of_mem s hx))
    simp [execLoop, hb, h0, ih']

theorem execLoop_usage_stop (env : RunEnv) (pre : List String) (t : String)
    (suf : List String)
    (hpre : ∀ s ∈ pre,
      (taskExtraction env s).used_exec_blocks = true ∧ env.exitOf s = 0)
    (ht : (taskExtraction env t).used_exec_blocks = false) :
    execLoop env (pre ++ t :: suf) = ⟨1, pre, some t⟩ := by
  induction pre with
  | nil => simp [execLoop, ht]
  | cons s pre ih =>
    obtain ⟨hb, h0⟩ := hpre s (by simp)
    have ih' := ih (fun x hx => hpre x (List.mem_cons_of_mem s hx))
    simp [execLoop, hb, h0, ih']

/-! ### Claim C2 -/

/-- Claim C2 (amended): the Executor has no separate validation phase and
structural errors never abort the run: missing-end warnings are emitted
per task as its own extraction happens, and any plan whose tasks all exist
and all contain at least one begin marker executes every task in order,
exiting 0 when all children succeed — whatever missing-end warnings its
scripts produce. -/
theorem c2_no_validation_phase (env : RunEnv) (planPath raw : String)
    (hplan : env.files planPath = some raw)
    (hne : (read_plan_parse raw).isEmpty = false)
    (hex : ∀ s ∈ read_plan_parse raw, (env.files s).isSome)
    (hdry : env.printPlan = false)
    (hall : ∀ s ∈ read_plan_parse raw,
      (taskExtraction env s).used_exec_blocks = true ∧ env.exitOf s = 0) :
    mainE env planPath = .ok ⟨0, read_plan_parse raw, none⟩ := by
  rw [mainE_run env planPath raw hplan hne hex hdry,
    execLoop_all_ok env _ hall]

/-- Claim C2 witness: a one-task plan whose script has an unterminated
block (one structural warning for `x`); via `c2_no_validation_phase` the
task still executes and the run exits 0. -/
theorem c2_wit :
    mainE envUnterminated "plan.txt" = .ok ⟨0, ["t.task.sh"], none⟩ ∧
    taskWarnings envUnterminated "t.task.sh" = ["x"] := by
  constructor
  · have h := c2_no_validation_phase envUnterminated "plan.txt" "t.task.sh\n"
      rfl (by decide) (by decide) rfl (by decide)
    exact h.trans (congrArg Except.ok (by decide))
  · decide

/-- Claim C2 counterexample: the claim says that when a structural error
(missing end marker) exists anywhere in the plan, the whole run aborts
without executing any task.  Here the single task's extraction records the
structural warning `x`, yet the execution loop runs that task and the
process exits 0. -/
theorem c2_cex :
    taskWarnings envUnterminated "t.task.sh" = ["x"] ∧
    execLoop envUnterminated ["t.task.sh"] = ⟨0, ["t.task.sh"], none⟩ ∧
    topMain envUnterminated "plan.txt" = 0 := by
  refine ⟨by decide, by decide, ?_⟩
  rfl

/-! ### Claim C8 -/

/-- Claim C8 (confirmed): the first task whose child process exits
non-zero ends the run: its exit status is returned unchanged as the
overall result, and no later task of the plan is started or reported. -/
theorem c8_first_nonzero_exit_stops (env : RunEnv) (planPath raw : String)
    (pre : List String) (t : String) (suf : List String)
    (hplan : env.files planPath = some raw)
    (hsplit : read_plan_parse raw = pre ++ t :: suf)
    (hex : ∀ s ∈ pre ++ t :: suf, (env.files s).isSome)
    (hdry : env.printPlan = false)
    (hpre : ∀ s ∈ pre,
      (taskExtraction env s).used_exec_blocks = true ∧ env.exitOf s = 0)
    (htb : (taskExtraction env t).used_exec_blocks = true)
    (hrc : env.exitOf t ≠ 0) :
    mainE env planPath = .ok ⟨env.exitOf t, pre ++ [t], none⟩ ∧
    topMain env planPath = env.exitOf t := by
  have hne : (read_plan_parse raw).isEmpty = false := by
    rw [hsplit]
    simp
  have hmain : mainE env planPath = .ok (execLoop env (read_plan_parse raw)) :=
    mainE_run env planPath raw hplan hne (hsplit ▸ hex) hdry
  have hloop : execLoop env (read_plan_parse raw) = ⟨env.exitOf t, pre ++ [t], none⟩ := by
    rw [hsplit]
    exact execLoop_first_fail env pre t suf hpre htb hrc
  refine ⟨hmain.trans (congrArg Except.ok hloop), ?_⟩
  unfold topMain
  rw [hmain, hloop]

/-- Claim C8 witness: a two-task plan whose first task's child exits with
code 3, via `c8_first_nonzero_exit_stops`: the run returns 3 and the
second task is never invoked. -/
theorem c8_wit :
    mainE envFailStep "plan.txt" = .ok ⟨3, ["a.task.sh"], none⟩ ∧
    topMain envFailStep "plan.txt" = 3 := by
  have h := c8_first_nonzero_exit_stops envFailStep "plan.txt" "a.task.sh\nb.task.sh\n"
    [] "a.task.sh" ["b.task.sh"] rfl (by decide) (by decide) rfl (by simp)
    (by decide) (by decide)
  exact ⟨h.1.trans (congrArg Except.ok (by decide)), h.2.trans (by decide)⟩

/-! ### Claim C9 -/

/-- Claim C9 (confirmed): in the execution phase (not dry-run), the first
task whose extraction found no begin marker stops the run with a fatal
usage error: it is reported, the exit code is 1, and neither it nor any
later task is executed. -/
theorem c9_missing_blocks_usage_error (env : RunEnv) (planPath raw : String)
    (pre : List String) (t : String) (suf : List String)
    (hplan : env.files planPath = some raw)
    (hsplit : read_plan_parse raw = pre ++ t :: suf)
    (hex : ∀ s ∈ pre ++ t :: suf, (env.files s).isSome)
    (hdry : env.printPlan = false)
    (hpre : ∀ s ∈ pre,
      (taskExtraction env s).used_exec_blocks = true ∧ env.exitOf s = 0)
    (ht : (taskExtraction env t).used_exec_blocks = false) :
    mainE env planPath = .ok ⟨1, pre, some t⟩ ∧
    topMain env planPath = 1 := by
  have hne : (read_plan_parse raw).isEmpty = false := by
    rw [hsplit]
    simp
  have hmain : mainE env planPath = .ok (execLoop env (read_plan_parse raw)) :=
    mainE_run env planPath raw hplan hne (hsplit ▸ hex) hdry
  have hloop : execLoop env (read_plan_parse raw) = ⟨1, pre, some t⟩ := by
    rw [hsplit]
    exact execLoop_usage_stop env pre t suf hpre ht
  refine ⟨hmain.trans (congrArg Except.ok hloop), ?_⟩
  unfold topMain
  rw [hmain, hloop]

/-- Claim C9 witness: a two-task plan whose first task has no begin
markers, via `c9_missing_blocks_usage_error`: the run reports that task,
exits 1, and executes nothing. -/
theorem c9_wit :
    mainE envNoBlocks "plan.txt" = .ok ⟨1, [], some "a.task.sh"⟩ ∧
    topMain envNoBlocks "plan.txt" = 1 := by
  have h := c9_missing_blocks_usage_error envNoBlocks "plan.txt" "a.task.sh\nb.task.sh\n"
    [] "a.task.sh" ["b.task.sh"] rfl (by decide) (by decide) rfl (by simp)
    (by decide)
  exact ⟨h.1.trans (congrArg Except.ok (by decide)), h.2⟩

/-! ### Claim C6 -/

/-- Claim C6 (amended): a missing input or dependency file makes both
entry points raise `FileNotFoundError`, which their outermost handlers map
to process exit code 2 (the generic uncaught-exception code), not 1; exit
code 1 is produced only by the missing-blocks usage failure. -/
theorem c6_missing_files_exit_two (env : RunEnv) (planPath raw : String)
    (hplan : env.files planPath = some raw)
    (hne : (read_plan_parse raw).isEmpty = false)
    (hmiss : (read_plan_parse raw).any (fun s => (env.files s).isNone) = true)
    (senv : SelEnv) (craw : String)
    (hc : senv.changedRead = .ok craw)
    (hcne : (from_changed_files craw).isEmpty = false)
    (hcmiss : (from_changed_files craw).all senv.fileExists = false) :
    topMain env planPath = 2 ∧ selTop senv = (2, none) := by
  constructor
  · unfold topMain mainE
    rw [hplan]
    simp [hne, hmiss]
  · unfold selTop selMain
    rw [hc]
    simp [hcne, hcmiss]

/-- Claim C6 witness: one world whose plan names a missing script and one
whose changed list selects a missing file, via
`c6_missing_files_exit_two`: both exit 2. -/
theorem c6_wit : topMain envMissing "plan.txt" = 2 ∧ selTop selenvMissing = (2, none) :=
  c6_missing_files_exit_two envMissing "plan.txt" "gone.task.sh\n" rfl
    (by decide) (by decide) selenvMissing "gone.task.sh\n" rfl (by decide) (by decide)

/-- Claim C6 counterexample: the claim says a missing file fails the run
with exit code 1; at these concrete worlds both processes exit 2, and
2 ≠ 1. -/
theorem c6_cex :
    topMain envMissing "plan.txt" = 2 ∧ selTop selenvMissing = (2, none) ∧
    (2 : Int) ≠ 1 := by
  refine ⟨?_, by decide, by decide⟩
  rfl

/-! ### Claim C7 -/

/-- Claim C7 (confirmed): a dependency reference is resolved, after
stripping surrounding whitespace and quotes, by the three rules in
priority order: a reference starting with `/` resolves as-is (independent
of both bases); one starting with `./` or `../` resolves against the
declaring script's directory (independent of the repo root); any other
reference resolves against the repo root (independent of the script's
directory). -/
theorem c7_dep_resolution_rules (root dir root2 dir2 raw : String) :
    (sStartsWith "/" (cleanRef raw) = true →
      resolveDep root dir raw = cleanRef raw ∧
        resolveDep root dir raw = resolveDep root2 dir2 raw) ∧
    (sStartsWith "/" (cleanRef raw) = false →
      (sStartsWith "./" (cleanRef raw) = true ∨ sStartsWith "../" (cleanRef raw) = true) →
      resolveDep root dir raw = dir ++ "/" ++ cleanRef raw ∧
        resolveDep root dir raw = resolveDep root2 dir raw) ∧
    (sStartsWith "/" (cleanRef raw) = false →
      sStartsWith "./" (cleanRef raw) = false →
      sStartsWith "../" (cleanRef raw) = false →
      resolveDep root dir raw = root ++ "/" ++ cleanRef raw ∧
        resolveDep root dir raw = resolveDep root dir2 raw) := by
  refine ⟨?_, ?_, ?_⟩
  · intro h
    constructor <;> simp [resolveDep, h]
  · intro h1 h2
    have hor : (sStartsWith "./" (cleanRef raw) || sStartsWith "../" (cleanRef raw)) = true := by
      rcases h2 with h | h <;> simp [h]
    constructor <;> simp [resolveDep, pJoin, h1, hor]
  · intro h1 h2 h3
    constructor <;> simp [resolveDep, pJoin, h1, h2, h3]

/-- Claim C7 witness: the three resolution rules at concrete references,
via `c7_dep_resolution_rules`. -/
theorem c7_wit :
    resolveDep "repo" "tasks" "/abs/x.task.sh" = "/abs/x.task.sh" ∧
    resolveDep "repo" "tasks" " ./x.task.sh " = "tasks" ++ "/" ++ "./x.task.sh" ∧
    resolveDep "repo" "tasks" "x.task.sh" = "repo" ++ "/" ++ "x.task.sh" := by
  refine ⟨?_, ?_, ?_⟩
  · exact ((c7_dep_resolution_rules "repo" "tasks" "r2" "d2" "/abs/x.task.sh").1
      (by decide)).1.trans (by decide)
  · exact (((c7_dep_resolution_rules "repo" "tasks" "r2" "d2" " ./x.task.sh ").2.1
      (by decide) (Or.inl (by decide))).1).trans (by decide)
  · exact (((c7_dep_resolution_rules "repo" "tasks" "r2" "d2" "x.task.sh").2.2
      (by decide) (by decide) (by decide)).1).trans (by decide)

/-! ### Claim C10 -/

/-- Claim C10 (confirmed): when reading/parsing the changed-file list
fails with anything other than the list file being missing, the error is
swallowed: an empty plan (the single newline) is written and the process
exits 0. -/
theorem c10_swallowed_error_empty_plan (env : SelEnv)
    (h : env.changedRead = .error .otherExc) :
    selMain env = .ok (0, "\n") ∧ selTop env = (0, some "\n") := by
  unfold selTop selMain
  rw [h]
  exact ⟨rfl, rfl⟩

/-- Claim C10 witness: a world whose changed-list read raises a
non-`FileNotFoundError` exception, via `c10_swallowed_error_empty_plan`. -/
theorem c10_wit :
    selMain selenvBadRead = .ok (0, "\n") ∧ selTop selenvBadRead = (0, some "\n") :=
  c10_swallowed_error_empty_plan selenvBadRead rfl
